import Mathlib

/-!
Shallow embedding of the storage engine of the file-storage HTTP API
(`src/storage.py`, class `Storage`), together with proofs settling the
specification claims about it.

Modelling conventions:
* Byte sequences are `List Nat` (each element a byte value).
* The content-hash algorithm is SHA-1 (`hashlib.sha1`), implemented
  concretely below over `List Nat` with 32-bit words as `Nat` reduced
  modulo `2 ^ 32`.
* `Storage.__init__` stores a *single* `sha1()` object in `self.hsh`;
  `get_file_hash` does `hsh = self.hsh` and calls `hsh.update` on it, so
  the digest state persists across calls.  The state `St.hsh` below is the
  list of all bytes absorbed so far by that shared object.
* The filesystem under the store root is `St.dirs`: an association list of
  shard-directory names to their files (name, content).  The local working
  directory that `open(file.filename)` reads from is a separate
  association list `cwd` passed to the operations that read it.
* Python exceptions become `Except PyErr`; mutating methods return the
  (possibly mutated) state alongside the result, since an exception still
  leaves earlier mutations in place.
-/

namespace FileStore

abbrev Bytes := List Nat

/-! ## SHA-1 (`hashlib.sha1`) -/

/-- Reduce to a 32-bit word. -/
def w32 (x : Nat) : Nat := x % 4294967296

/-- Rotate a 32-bit word left by `n`. -/
def rotl (n x : Nat) : Nat := w32 ((x <<< n) + (x >>> (32 - n)))

/-- Big-endian byte encoding of `n` in `k` bytes. -/
def beBytes : Nat → Nat → List Nat
  | 0, _ => []
  | k + 1, n => beBytes k (n >>> 8) ++ [n % 256]

/-- SHA-1 message padding: append `0x80`, zero bytes to 56 mod 64, then the
bit length in 8 big-endian bytes. -/
def padMsg (msg : List Nat) : List Nat :=
  msg ++ 128 :: List.replicate ((119 - msg.length % 64) % 64) 0 ++ beBytes 8 (msg.length * 8)

/-- Pack bytes into big-endian 32-bit words. -/
def toWords : List Nat → List Nat
  | a :: b :: c :: d :: rest => ((a <<< 24) + (b <<< 16) + (c <<< 8) + d) :: toWords rest
  | _ => []

/-- Word `i` of the schedule (0 when out of range). -/
def wordAt (ws : List Nat) (i : Nat) : Nat := ws.getD i 0

/-- Extend the 16 message words by `n` further schedule words. -/
def extendWords (ws : List Nat) : Nat → List Nat
  | 0 => ws
  | n + 1 =>
    extendWords
      (ws ++ [rotl 1 (wordAt ws (ws.length - 3) ^^^ wordAt ws (ws.length - 8) ^^^
        wordAt ws (ws.length - 14) ^^^ wordAt ws (ws.length - 16))]) n

/-- Round function of SHA-1. -/
def fval (i b c d : Nat) : Nat :=
  if i < 20 then (b &&& c) ||| ((b ^^^ 4294967295) &&& d)
  else if i < 40 then b ^^^ c ^^^ d
  else if i < 60 then (b &&& c) ||| (b &&& d) ||| (c &&& d)
  else b ^^^ c ^^^ d

/-- Round constant of SHA-1. -/
def kval (i : Nat) : Nat :=
  if i < 20 then 1518500249
  else if i < 40 then 1859775393
  else if i < 60 then 2400959708
  else 3395469782

/-- Run the 80 SHA-1 rounds over the schedule words. -/
def rounds : List Nat → Nat → Nat × Nat × Nat × Nat × Nat → Nat × Nat × Nat × Nat × Nat
  | [], _, st => st
  | w :: ws, i, (a, b, c, d, e) =>
    rounds ws (i + 1) (w32 (rotl 5 a + fval i b c d + e + kval i + w), a, rotl 30 b, c, d)

/-- Compress one 64-byte block into the running digest state. -/
def procBlock (st : Nat × Nat × Nat × Nat × Nat) (block : List Nat) :
    Nat × Nat × Nat × Nat × Nat :=
  match st, rounds (extendWords (toWords block) 64) 0 st with
  | (h0, h1, h2, h3, h4), (a, b, c, d, e) =>
    (w32 (h0 + a), w32 (h1 + b), w32 (h2 + c), w32 (h3 + d), w32 (h4 + e))

/-- Process the padded message 64 bytes at a time (the fuel argument, set to
the message length, bounds the number of blocks and makes the recursion
structural). -/
def procAll : Nat → List Nat → Nat × Nat × Nat × Nat × Nat → Nat × Nat × Nat × Nat × Nat
  | 0, _, st => st
  | fuel + 1, bytes, st =>
    match bytes with
    | [] => st
    | _ => procAll fuel (bytes.drop 64) (procBlock st (bytes.take 64))

/-- SHA-1 digest of a byte sequence, as five 32-bit words. -/
def sha1Words (msg : List Nat) : Nat × Nat × Nat × Nat × Nat :=
  procAll (padMsg msg).length (padMsg msg)
    (1732584193, 4023233417, 2562383102, 271733878, 3285377520)

/-- Lowercase hex digit. -/
def hexDigit (n : Nat) : Char := if n < 10 then Char.ofNat (48 + n) else Char.ofNat (87 + n)

/-- Lowercase 8-hex-digit rendering of a 32-bit word. -/
def hex8 (n : Nat) : String :=
  String.mk ((List.range 8).map fun i => hexDigit ((n >>> ((7 - i) * 4)) % 16))

/-- Lowercase hex digest of a byte sequence, as returned by `hexdigest()`. -/
def sha1Hex (msg : List Nat) : String :=
  match sha1Words msg with
  | (a, b, c, d, e) => hex8 a ++ hex8 b ++ hex8 c ++ hex8 d ++ hex8 e

/-! ## String helpers (Python `str` slicing and `rpartition`) -/

/-- Python string slice `s[:n]`. -/
def strTake (s : String) (n : Nat) : String := String.mk (s.data.take n)

/-- Helper for `rpartition`: split a character list at its *last* `'.'`,
returning the parts before and after it, or `none` when there is no dot. -/
def rdotAux : List Char → Option (List Char × List Char)
  | [] => none
  | c :: cs =>
    match rdotAux cs with
    | some (a, b) => some (c :: a, b)
    | none => if c = '.' then some ([], cs) else none

/-- Python `s.rpartition('.')`: `(before, ".", after)` at the last dot, or
`("", "", s)` when `s` contains no dot. -/
def rpartition (s : String) : String × String × String :=
  match rdotAux s.data with
  | some (a, b) => (String.mk a, ".", String.mk b)
  | none => ("", "", s)

/-- Python `s.rpartition('.')[0]` — the name stem compared against the hash
by `get_file_extension`. -/
def stemOf (n : String) : String := (rpartition n).1

/-- Python `s.rpartition('.')[-1]` — used both to derive the upload
extension from `file.filename` and to return the extension of a stored
file name. -/
def extOfName (n : String) : String := (rpartition n).2.2

/-- Python `'.'.join((file_hash, file_extension))` with exactly two parts:
the stored object's file name. -/
def objectName (file_hash file_extension : String) : String :=
  file_hash ++ "." ++ file_extension

/-! ## Storage state -/

/-- FastAPI `UploadFile`: the client-supplied original filename plus the
bytes of the uploaded stream (`file.file`). -/
structure UploadFile where
  filename : String
  content : Bytes
deriving DecidableEq

/-- Python exceptions raised by the engine: `FileNotFoundError`,
`ValueError` (duplicate upload), and an `OSError` from a failing
filesystem call (used to model `rmdir` failure). -/
inductive PyErr where
  | fileNotFound
  | valueErr
  | osErr
deriving DecidableEq

instance instDecEqExcept {e a : Type} [DecidableEq e] [DecidableEq a] :
    DecidableEq (Except e a)
  | Except.error e1, Except.error e2 =>
    match decEq e1 e2 with
    | isTrue h => isTrue (h ▸ rfl)
    | isFalse h => isFalse fun hh => h (Except.error.inj hh)
  | Except.error _, Except.ok _ => isFalse Except.noConfusion
  | Except.ok _, Except.error _ => isFalse Except.noConfusion
  | Except.ok a1, Except.ok a2 =>
    match decEq a1 a2 with
    | isTrue h => isTrue (h ▸ rfl)
    | isFalse h => isFalse fun hh => h (Except.ok.inj hh)

/-- Mutable state of one `Storage` instance plus the store root:
`hsh` is the byte sequence absorbed so far by the shared `self.hsh`
digest object; `dirs` maps each existing shard directory name to its
files (file name, content). -/
structure St where
  hsh : Bytes
  dirs : List (String × List (String × Bytes))
deriving DecidableEq

/-- The fresh state: empty digest object, empty store root. -/
def initSt : St := St.mk [] []

/-- Look a file up in the process working directory. -/
def lookupBytes : List (String × Bytes) → String → Option Bytes
  | [], _ => none
  | e :: rest, n => if e.1 = n then some e.2 else lookupBytes rest n

/-- Look a shard directory up by name. -/
def findDir : List (String × List (String × Bytes)) → String → Option (List (String × Bytes))
  | [], _ => none
  | p :: rest, d => if p.1 = d then some p.2 else findDir rest d

/-- Does a file with this name exist in the directory listing? -/
def hasEntry : List (String × Bytes) → String → Bool
  | [], _ => false
  | e :: rest, n => if e.1 = n then true else hasEntry rest n

/-- Write a file into a directory listing (`open(path, 'wb')` semantics:
truncate an existing file of that name, else create it). -/
def putEntry : List (String × Bytes) → String → Bytes → List (String × Bytes)
  | [], n, c => [(n, c)]
  | e :: rest, n, c => if e.1 = n then (n, c) :: rest else e :: putEntry rest n c

/-- Delete a file from a directory listing (`Path.unlink`). -/
def delEntry : List (String × Bytes) → String → List (String × Bytes)
  | [], _ => []
  | e :: rest, n => if e.1 = n then delEntry rest n else e :: delEntry rest n

/-- Write a file into shard directory `d` of the store root. -/
def writeF (dirs : List (String × List (String × Bytes))) (d fname : String) (c : Bytes) :
    List (String × List (String × Bytes)) :=
  dirs.map fun q => if q.1 = d then (q.1, putEntry q.2 fname c) else q

/-- Replace the listing of shard directory `d`. -/
def setDir (dirs : List (String × List (String × Bytes))) (d : String)
    (files : List (String × Bytes)) : List (String × List (String × Bytes)) :=
  dirs.map fun q => if q.1 = d then (d, files) else q

/-- Remove shard directory `d` (`Path.rmdir`). -/
def delDir : List (String × List (String × Bytes)) → String →
    List (String × List (String × Bytes))
  | [], _ => []
  | q :: rest, d => if q.1 = d then delDir rest d else q :: delDir rest d

/-! ## The `Storage` methods -/

/-- `Storage.get_file_hash`: opens `file.filename` in the process working
directory (not the uploaded stream!), folds its bytes into the *shared*
`self.hsh` digest object, and returns `hexdigest()`.  A missing local file
makes `open` raise `FileNotFoundError`.  On success the shared digest
state has absorbed the file's bytes. -/
def get_file_hash (cwd : List (String × Bytes)) (file : UploadFile) (s : St) :
    Except PyErr (String × St) :=
  match lookupBytes cwd file.filename with
  | none => Except.error PyErr.fileNotFound
  | some c => Except.ok (sha1Hex (s.hsh ++ c), St.mk (s.hsh ++ c) s.dirs)

/-- `Storage.get_file_directory`: the shard directory for a hash is
`self.path / file_hash[:self.dir_len]`; we model it by the directory's
name component under the fixed root.  Python slicing never fails. -/
def get_file_directory (dir_len : Nat) (file_hash : String) : String :=
  strTake file_hash dir_len

/-- Scan of `get_file_extension`: first directory entry whose
`rpartition('.')` stem equals the hash gives the extension; otherwise
`FileNotFoundError`. -/
def scanExt : List (String × Bytes) → String → Except PyErr String
  | [], _ => Except.error PyErr.fileNotFound
  | e :: rest, h =>
    if stemOf e.1 = h then Except.ok (extOfName e.1) else scanExt rest h

/-- `Storage.get_file_extension`: lists the shard directory (raising
`FileNotFoundError` when it does not exist, as `iterdir` does) and scans
for the file whose stem is the hash. -/
def get_file_extension (dir_len : Nat) (file_hash : String) (s : St) : Except PyErr String :=
  match findDir s.dirs (get_file_directory dir_len file_hash) with
  | none => Except.error PyErr.fileNotFound
  | some files => scanExt files file_hash

/-- `Storage.upload_file`: hash the local file named by the client filename
(mutating the shared digest state), derive the extension as
`file.filename.rpartition('.')[-1]`, then create the shard directory if
missing, `elif` reject an existing object path with `ValueError`, and
otherwise write the *stream* bytes to the object path. -/
def upload_file (dir_len : Nat) (cwd : List (String × Bytes)) (file : UploadFile) (s : St) :
    Except PyErr String × St :=
  match get_file_hash cwd file s with
  | Except.error e => (Except.error e, s)
  | Except.ok (file_hash, s1) =>
    match findDir s1.dirs (get_file_directory dir_len file_hash) with
    | none =>
      (Except.ok file_hash,
        St.mk s1.hsh
          (writeF (s1.dirs ++ [(get_file_directory dir_len file_hash, [])])
            (get_file_directory dir_len file_hash)
            (objectName file_hash (extOfName file.filename)) file.content))
    | some files =>
      if hasEntry files (objectName file_hash (extOfName file.filename)) then
        (Except.error PyErr.valueErr, s1)
      else
        (Except.ok file_hash,
          St.mk s1.hsh
            (writeF s1.dirs (get_file_directory dir_len file_hash)
              (objectName file_hash (extOfName file.filename)) file.content))

/-- `Storage.download_file`: locate the extension (propagating its
`FileNotFoundError`), rebuild the object path, re-check its existence, and
return the path `(shard directory name, file name)`. -/
def download_file (dir_len : Nat) (file_hash : String) (s : St) :
    Except PyErr (String × String) :=
  match findDir s.dirs (get_file_directory dir_len file_hash) with
  | none => Except.error PyErr.fileNotFound
  | some files =>
    match scanExt files file_hash with
    | Except.error e => Except.error e
    | Except.ok ext =>
      if hasEntry files (objectName file_hash ext) then
        Except.ok (get_file_directory dir_len file_hash, objectName file_hash ext)
      else Except.error PyErr.fileNotFound

/-- `Storage.remove_file`: locate the extension, re-check the object path,
unlink the file, and if the shard directory is then empty call `rmdir` on
it.  The code has no handler around `rmdir`: `rmdirOk = false` models the
filesystem call failing, and its `OSError` propagates out while the file
deletion stays in effect. -/
def remove_file (dir_len : Nat) (rmdirOk : Bool) (file_hash : String) (s : St) :
    Except PyErr Unit × St :=
  match findDir s.dirs (get_file_directory dir_len file_hash) with
  | none => (Except.error PyErr.fileNotFound, s)
  | some files =>
    match scanExt files file_hash with
    | Except.error e => (Except.error e, s)
    | Except.ok ext =>
      if hasEntry files (objectName file_hash ext) then
        if (delEntry files (objectName file_hash ext)).isEmpty then
          if rmdirOk then
            (Except.ok (),
              St.mk s.hsh (delDir s.dirs (get_file_directory dir_len file_hash)))
          else
            (Except.error PyErr.osErr,
              St.mk s.hsh
                (setDir s.dirs (get_file_directory dir_len file_hash)
                  (delEntry files (objectName file_hash ext))))
        else
          (Except.ok (),
            St.mk s.hsh
              (setDir s.dirs (get_file_directory dir_len file_hash)
                (delEntry files (objectName file_hash ext))))
      else (Except.error PyErr.fileNotFound, s)

/-- Count of stored objects across all shard directories. -/
def countObjects (s : St) : Nat := (s.dirs.map fun q => q.2.length).sum

/-- Number of files in a listing whose name stem is the given hash. -/
def countStem : List (String × Bytes) → String → Nat
  | [], _ => 0
  | e :: rest, h => (if stemOf e.1 = h then 1 else 0) + countStem rest h

/-! ## Operation sequences (for reachable-state invariants) -/

/-- One engine operation, together with the environment it reads: an upload
carries the process working directory visible to `open(file.filename)`. -/
inductive Op where
  | upl (cwd : List (String × Bytes)) (f : UploadFile)
  | dwn (h : String)
  | rmv (h : String)

/-- State transition of one operation (download mutates nothing; errors
leave whatever mutations already happened). -/
def step (dir_len : Nat) (s : St) : Op → St
  | Op.upl cwd f => (upload_file dir_len cwd f s).2
  | Op.dwn _ => s
  | Op.rmv h => (remove_file dir_len true h s).2

/-- State after running a sequence of operations from the fresh store. -/
def runOps (dir_len : Nat) (ops : List Op) : St := ops.foldl (step dir_len) initSt

/-! ## String lemmas -/

theorem strData_inj {a b : String} (h : a.data = b.data) : a = b := by
  cases a
  cases b
  exact congrArg String.mk h

theorem data_append (a b : String) : (a ++ b).data = a.data ++ b.data := by
  cases a
  cases b
  rfl

theorem data_objectName (h e : String) :
    (objectName h e).data = h.data ++ '.' :: e.data := by
  simp [objectName, data_append]

theorem rdotAux_none {l : List Char} (hnd : '.' ∉ l) : rdotAux l = none := by
  induction l with
  | nil => rfl
  | cons c cs ih =>
    have hc : ¬c = '.' := fun hh => hnd (hh ▸ List.mem_cons_self c cs)
    have hcs : '.' ∉ cs := fun hh => hnd (List.mem_cons_of_mem c hh)
    simp [rdotAux, ih hcs, hc]

theorem rdot_reconstruct :
    ∀ {l : List Char} {a b : List Char}, rdotAux l = some (a, b) → l = a ++ '.' :: b := by
  intro l
  induction l with
  | nil => intro a b hab; simp [rdotAux] at hab
  | cons c cs ih =>
    intro a b hab
    rcases hcs : rdotAux cs with _ | ⟨a', b'⟩
    · simp only [rdotAux, hcs] at hab
      by_cases hc : c = '.'
      · subst hc
        simp only [if_pos rfl] at hab
        have hab' : (([] : List Char), cs) = (a, b) := Option.some.inj hab
        have ha : ([] : List Char) = a := congrArg Prod.fst hab'
        have hb : cs = b := congrArg Prod.snd hab'
        subst ha
        subst hb
        rfl
      · simp [hc] at hab
    · simp only [rdotAux, hcs] at hab
      have hab' : (c :: a', b') = (a, b) := Option.some.inj hab
      have ha : c :: a' = a := congrArg Prod.fst hab'
      have hb : b' = b := congrArg Prod.snd hab'
      subst hb
      have hrec := ih hcs
      rw [← ha, hrec]
      rfl

theorem stem_reconstruct {n h : String} (hs : stemOf n = h) (hne : h ≠ "") :
    n = objectName h (extOfName n) := by
  rcases hr : rdotAux n.data with _ | ⟨a, b⟩
  · exfalso
    apply hne
    rw [← hs]
    simp [stemOf, rpartition, hr]
  · have hrec := rdot_reconstruct hr
    have hstem : stemOf n = String.mk a := by simp [stemOf, rpartition, hr]
    have hext : extOfName n = String.mk b := by simp [extOfName, rpartition, hr]
    apply strData_inj
    rw [data_objectName, hext, ← hs, hstem]
    simpa using hrec

/-! ## C1 — Hash determinism -/

set_option maxRecDepth 100000 in
/-- Claim C1, behavior of the code at the failing input: the digest object
`self.hsh` is shared instance state, so hashing the same one-byte file
twice on one `Storage` instance returns `sha1(b)` and then `sha1(b ++ b)`,
two different hex digests — the hashing operation is not deterministic
across calls. -/
theorem get_file_hash_not_deterministic :
    get_file_hash [("a.bin", [0])] (UploadFile.mk "a.bin" [0]) initSt =
      Except.ok (sha1Hex [0], St.mk [0] []) ∧
    get_file_hash [("a.bin", [0])] (UploadFile.mk "a.bin" [0]) (St.mk [0] []) =
      Except.ok (sha1Hex [0, 0], St.mk [0, 0] []) ∧
    sha1Hex [0, 0] ≠ sha1Hex [0] := by
  refine ⟨rfl, rfl, by decide⟩

/-! ## C2 — Round trip -/

/-- Claim C2, behavior of the code at the failing input: upload of the byte
sequence `[1]` under the client-supplied name `x.txt` does not succeed with
the digest of `[1]`; `get_file_hash` opens `x.txt` in the process working
directory, and since no such local file exists the upload raises
`FileNotFoundError` and leaves the store untouched. -/
theorem upload_no_local_file_errors :
    upload_file 2 [] (UploadFile.mk "x.txt" [1]) initSt =
      (Except.error PyErr.fileNotFound, initSt) := by
  rfl

/-! ## C3 — Duplicate rejection -/

set_option maxRecDepth 400000 in
/-- Claim C3, behavior of the code at the failing input: uploading the same
one-byte content twice yields success *twice*, not success then
`DuplicateObject`.  The shared digest state makes the second call hash
`b ++ b`, producing a different hash, so the duplicate check never fires
and a second object is stored. -/
theorem second_upload_same_content_succeeds :
    (upload_file 2 [("a.bin", [0])] (UploadFile.mk "a.bin" [0]) initSt).1 =
      Except.ok (sha1Hex [0]) ∧
    (upload_file 2 [("a.bin", [0])] (UploadFile.mk "a.bin" [0])
        (upload_file 2 [("a.bin", [0])] (UploadFile.mk "a.bin" [0]) initSt).2).1 =
      Except.ok (sha1Hex [0, 0]) ∧
    sha1Hex [0, 0] ≠ sha1Hex [0] ∧
    countObjects (upload_file 2 [("a.bin", [0])] (UploadFile.mk "a.bin" [0])
        (upload_file 2 [("a.bin", [0])] (UploadFile.mk "a.bin" [0]) initSt).2).2 = 2 := by
  refine ⟨rfl, rfl, by decide, rfl⟩

/-! ## C4 — Empty-extension object path -/

/-- Claim C4 is false: with an empty extension the code still builds
`hash + "." + extension`, so the object name carries a trailing dot and is
not the bare hash. -/
theorem objectName_empty_ext_cx :
    objectName "ab12" "" = "ab12." ∧ ("ab12." : String) ≠ "ab12" := by
  refine ⟨rfl, by decide⟩

/-- Claim C4 (amended): for every hash `h`, the object name built for the
empty extension is `h ++ "."` — a dot *is* appended — and in particular it
differs from the bare `h` the spec describes.  Upload, Download and Remove
all build object paths through `objectName`. -/
theorem objectName_empty_ext (h : String) :
    objectName h "" = h ++ "." ∧ objectName h "" ≠ h := by
  have hd : (objectName h "").data = h.data ++ ['.'] := by
    rw [data_objectName]
  constructor
  · apply strData_inj
    rw [hd, data_append]
  · intro heq
    have := congrArg (fun s => s.data.length) heq
    simp [hd] at this

/-! ## C5 — Extension derivation -/

/-- Claim C5 is false on the code: a filename containing no dot does not
yield an empty extension; `rpartition('.')[-1]` returns the whole filename
when no dot is found. -/
theorem ext_of_dotless_cx :
    extOfName "Makefile" = "Makefile" ∧ ("Makefile" : String) ≠ "" := by
  refine ⟨rfl, by decide⟩

/-- Claim C5 (amended): Upload derives the extension as the text after the
last dot of the client-supplied filename, but a filename with *no* dot
yields the entire filename as the extension (Python `rpartition`
semantics), not the empty string; it is still accepted rather than
rejected. -/
theorem ext_of_dotless (name : String) (hnd : '.' ∉ name.data) :
    extOfName name = name := by
  simp [extOfName, rpartition, rdotAux_none hnd]

/-- Witness for `ext_of_dotless` at the concrete dotless name `doc`. -/
theorem ext_of_dotless_witness :
    '.' ∉ ("doc" : String).data ∧ extOfName "doc" = "doc" :=
  ⟨by decide, ext_of_dotless "doc" (by decide)⟩

/-! ## C6 — Short-hash rejection -/

/-- Claim C6 is false on the code: resolving the shard directory of the
one-character hash `a` (shorter than the shard-prefix length 2) does not
fail with any `InvalidHash` error; Python slicing just truncates, and the
directory resolves to `root/a`. -/
theorem get_file_directory_short_hash_cx :
    get_file_directory 2 "a" = "a" ∧ ("a" : String).length < 2 := by
  refine ⟨rfl, by decide⟩

/-- Claim C6 (amended): `get_file_directory` is total and never raises: a
hash shorter than the shard-prefix length resolves to `root/hash`
unchanged (the slice truncates), and a hash of length at least the
shard-prefix length resolves to `root/hash[0:N]`, whose name has exactly
`N` characters. -/
theorem get_file_directory_total (N : Nat) (h : String) :
    (h.length < N → get_file_directory N h = h) ∧
    (N ≤ h.length → (get_file_directory N h).length = N) := by
  constructor
  · intro hlt
    apply strData_inj
    show (h.data.take N) = h.data
    exact List.take_of_length_le (Nat.le_of_lt hlt)
  · intro hge
    show (h.data.take N).length = N
    rw [List.length_take]
    exact Nat.min_eq_left hge

/-- Witness for `get_file_directory_total` at concrete inputs on both
sides: the short hash `z` resolves to itself, and the four-character hash
`ab12` resolves to a two-character shard name. -/
theorem get_file_directory_total_witness :
    (("z" : String).length < 2 ∧ get_file_directory 2 "z" = "z") ∧
    (2 ≤ ("ab12" : String).length ∧ (get_file_directory 2 "ab12").length = 2) :=
  ⟨⟨by decide, (get_file_directory_total 2 "z").1 (by decide)⟩,
   ⟨by decide, (get_file_directory_total 2 "ab12").2 (by decide)⟩⟩

/-! ## Store-manipulation lemmas -/

theorem putEntry_ne_nil (l : List (String × Bytes)) (n : String) (c : Bytes) :
    putEntry l n c ≠ [] := by
  cases l with
  | nil => simp [putEntry]
  | cons e rest =>
    simp only [putEntry]
    split <;> simp

theorem writeF_noem {dirs : List (String × List (String × Bytes))} {d fname : String}
    {c : Bytes} (hd : ∀ p ∈ dirs, p.1 ≠ d → p.2 ≠ []) :
    ∀ p ∈ writeF dirs d fname c, p.2 ≠ [] := by
  intro p hp
  simp only [writeF, List.mem_map] at hp
  obtain ⟨q, hq, he⟩ := hp
  by_cases hqd : q.1 = d
  · rw [← he, if_pos hqd]
    exact putEntry_ne_nil q.2 fname c
  · rw [← he, if_neg hqd]
    exact hd q hq hqd

theorem setDir_noem {dirs : List (String × List (String × Bytes))} {d : String}
    {files : List (String × Bytes)} (hf : files ≠ []) (hd : ∀ p ∈ dirs, p.2 ≠ []) :
    ∀ p ∈ setDir dirs d files, p.2 ≠ [] := by
  intro p hp
  simp only [setDir, List.mem_map] at hp
  obtain ⟨q, hq, he⟩ := hp
  by_cases hqd : q.1 = d
  · rw [← he, if_pos hqd]
    exact hf
  · rw [← he, if_neg hqd]
    exact hd q hq

theorem mem_delDir {l : List (String × List (String × Bytes))} {d : String}
    {p : String × List (String × Bytes)} (hp : p ∈ delDir l d) : p ∈ l := by
  induction l with
  | nil => simp [delDir] at hp
  | cons q rest ih =>
    by_cases hq : q.1 = d
    · simp only [delDir, if_pos hq] at hp
      exact List.mem_cons_of_mem q (ih hp)
    · simp only [delDir, if_neg hq] at hp
      rcases List.mem_cons.mp hp with he | hm
      · rw [he]; exact List.mem_cons_self q rest
      · exact List.mem_cons_of_mem q (ih hm)

theorem get_file_hash_dirs {cwd : List (String × Bytes)} {f : UploadFile} {s : St}
    {fh : String} {s1 : St} (hg : get_file_hash cwd f s = Except.ok (fh, s1)) :
    s1.dirs = s.dirs := by
  cases hl : lookupBytes cwd f.filename with
  | none => simp [get_file_hash, hl] at hg
  | some c =>
    simp only [get_file_hash, hl, Except.ok.injEq, Prod.mk.injEq] at hg
    rw [← hg.2]

/-! ## C7 — Shard-directory invariant -/

theorem noem_upload (dl : Nat) (cwd : List (String × Bytes)) (f : UploadFile) (s : St)
    (hs : ∀ p ∈ s.dirs, p.2 ≠ []) :
    ∀ p ∈ (upload_file dl cwd f s).2.dirs, p.2 ≠ [] := by
  cases hg : get_file_hash cwd f s with
  | error e =>
    intro p hp
    simp only [upload_file, hg] at hp
    exact hs p hp
  | ok pr =>
    obtain ⟨fh, s1⟩ := pr
    have hdirs : s1.dirs = s.dirs := get_file_hash_dirs hg
    cases hfd : findDir s1.dirs (get_file_directory dl fh) with
    | none =>
      intro p hp
      simp only [upload_file, hg, hfd] at hp
      refine writeF_noem ?_ p hp
      intro q hq hqd
      rcases List.mem_append.mp hq with h1 | h2
      · exact hs q (hdirs ▸ h1)
      · exfalso
        apply hqd
        have hq2 : q = (get_file_directory dl fh, []) := by simpa using h2
        rw [hq2]
    | some files =>
      by_cases hhe : hasEntry files (objectName fh (extOfName f.filename)) = true
      · intro p hp
        simp only [upload_file, hg, hfd, if_pos hhe] at hp
        exact hs p (hdirs ▸ hp)
      · intro p hp
        simp only [upload_file, hg, hfd, if_neg hhe] at hp
        refine writeF_noem ?_ p hp
        intro q hq _
        exact hs q (hdirs ▸ hq)

theorem noem_remove (dl : Nat) (h : String) (s : St)
    (hs : ∀ p ∈ s.dirs, p.2 ≠ []) :
    ∀ p ∈ (remove_file dl true h s).2.dirs, p.2 ≠ [] := by
  cases hfd : findDir s.dirs (get_file_directory dl h) with
  | none =>
    intro p hp
    simp only [remove_file, hfd] at hp
    exact hs p hp
  | some files =>
    cases hse : scanExt files h with
    | error e =>
      intro p hp
      simp only [remove_file, hfd, hse] at hp
      exact hs p hp
    | ok ext =>
      by_cases hhe : hasEntry files (objectName h ext) = true
      · by_cases hem : (delEntry files (objectName h ext)).isEmpty = true
        · intro p hp
          simp only [remove_file, hfd, hse, if_pos hhe, if_pos hem] at hp
          exact hs p (mem_delDir hp)
        · intro p hp
          simp only [remove_file, hfd, hse, if_pos hhe, if_neg hem] at hp
          have hne : delEntry files (objectName h ext) ≠ [] := by
            intro h0
            rw [h0] at hem
            simp at hem
          exact setDir_noem hne hs p hp
      · intro p hp
        simp only [remove_file, hfd, hse, if_neg hhe] at hp
        exact hs p hp

theorem noem_step (dl : Nat) (s : St) (op : Op) (hs : ∀ p ∈ s.dirs, p.2 ≠ []) :
    ∀ p ∈ (step dl s op).dirs, p.2 ≠ [] := by
  cases op with
  | upl cwd f => exact noem_upload dl cwd f s hs
  | dwn h => exact hs
  | rmv h => exact noem_remove dl h s hs

theorem noem_runAux (dl : Nat) (ops : List Op) :
    ∀ s : St, (∀ p ∈ s.dirs, p.2 ≠ []) → ∀ p ∈ (ops.foldl (step dl) s).dirs, p.2 ≠ [] := by
  induction ops with
  | nil =>
    intro s hs
    simpa using hs
  | cons op rest ih =>
    intro s hs
    exact ih _ (noem_step dl s op hs)

/-- Claim C7 (confirmed): in every state reachable from the empty store by
any sequence of Upload, Download and Remove operations, a shard directory
exists if and only if it contains at least one stored object — uploads
create shard directories only together with the object they write, and a
remove that empties a shard directory deletes the directory as well. -/
theorem shard_dir_exists_iff_nonempty (dl : Nat) (ops : List Op) (d : String) :
    (∃ fs, (d, fs) ∈ (runOps dl ops).dirs) ↔
      ∃ fs f, (d, fs) ∈ (runOps dl ops).dirs ∧ f ∈ fs := by
  constructor
  · rintro ⟨fs, hm⟩
    have hne : fs ≠ [] :=
      noem_runAux dl ops initSt (by intro p hp; simp [initSt] at hp) (d, fs) hm
    cases fs with
    | nil => exact absurd rfl hne
    | cons x xs => exact ⟨x :: xs, x, hm, List.mem_cons_self x xs⟩
  · rintro ⟨fs, f, hm, _⟩
    exact ⟨fs, hm⟩

/-! ## Extension-locator lemmas -/

theorem scanExt_ok {files : List (String × Bytes)} {h e : String}
    (hs : scanExt files h = Except.ok e) :
    ∃ n c, (n, c) ∈ files ∧ stemOf n = h ∧ extOfName n = e := by
  induction files with
  | nil => simp [scanExt] at hs
  | cons f rest ih =>
    by_cases hf : stemOf f.1 = h
    · simp only [scanExt, if_pos hf] at hs
      have he : extOfName f.1 = e := Except.ok.inj hs
      exact ⟨f.1, f.2, by simp, hf, he⟩
    · simp only [scanExt, if_neg hf] at hs
      obtain ⟨n, c, hm, h1, h2⟩ := ih hs
      exact ⟨n, c, List.mem_cons_of_mem f hm, h1, h2⟩

theorem scanExt_none {files : List (String × Bytes)} {h : String}
    (hall : ∀ p ∈ files, stemOf p.1 ≠ h) :
    scanExt files h = Except.error PyErr.fileNotFound := by
  induction files with
  | nil => rfl
  | cons f rest ih =>
    have hf := hall f (List.mem_cons_self f rest)
    simp only [scanExt, if_neg hf]
    exact ih fun p hp => hall p (List.mem_cons_of_mem f hp)

theorem scanExt_err {files : List (String × Bytes)} {h : String} {e : PyErr}
    (hs : scanExt files h = Except.error e) : e = PyErr.fileNotFound := by
  induction files with
  | nil =>
    simp only [scanExt, Except.error.injEq] at hs
    exact hs.symm
  | cons f rest ih =>
    by_cases hf : stemOf f.1 = h
    · simp [scanExt, if_pos hf] at hs
    · simp only [scanExt, if_neg hf] at hs
      exact ih hs

theorem countStem_pos {files : List (String × Bytes)} {n : String} {c : Bytes} {h : String}
    (hm : (n, c) ∈ files) (hs : stemOf n = h) : 1 ≤ countStem files h := by
  induction files with
  | nil => simp at hm
  | cons f rest ih =>
    rcases List.mem_cons.mp hm with he | hm'
    · have hf : stemOf f.1 = h := by rw [← he]; exact hs
      simp [countStem, hf]
    · have h1 := ih hm'
      by_cases hf : stemOf f.1 = h
      · simp only [countStem, if_pos hf]
        omega
      · simp only [countStem, if_neg hf]
        omega

theorem countStem_zero {files : List (String × Bytes)} {h : String}
    (h0 : countStem files h = 0) : ∀ p ∈ files, stemOf p.1 ≠ h := by
  induction files with
  | nil => simp
  | cons f rest ih =>
    by_cases hf : stemOf f.1 = h
    · simp [countStem, hf] at h0
    · simp only [countStem, if_neg hf, Nat.zero_add] at h0
      intro p hp
      rcases List.mem_cons.mp hp with he | hm
      · rw [he]; exact hf
      · exact ih h0 p hm

theorem delEntry_sub {files : List (String × Bytes)} {n : String} {p : String × Bytes}
    (hp : p ∈ delEntry files n) : p ∈ files := by
  induction files with
  | nil => simp [delEntry] at hp
  | cons f rest ih =>
    by_cases hf : f.1 = n
    · simp only [delEntry, if_pos hf] at hp
      exact List.mem_cons_of_mem f (ih hp)
    · simp only [delEntry, if_neg hf] at hp
      rcases List.mem_cons.mp hp with he | hm
      · rw [he]; exact List.mem_cons_self f rest
      · exact List.mem_cons_of_mem f (ih hm)

theorem countStem_del {files : List (String × Bytes)} {n : String} {c : Bytes} {h : String}
    (hle : countStem files h ≤ 1) (hm : (n, c) ∈ files) (hs : stemOf n = h) :
    ∀ p ∈ delEntry files n, stemOf p.1 ≠ h := by
  induction files with
  | nil => simp [delEntry]
  | cons f rest ih =>
    by_cases hf : f.1 = n
    · simp only [delEntry, if_pos hf]
      have hfh : stemOf f.1 = h := by rw [hf]; exact hs
      have h0 : countStem rest h = 0 := by
        simp only [countStem, if_pos hfh] at hle
        omega
      intro p hp
      exact countStem_zero h0 p (delEntry_sub hp)
    · simp only [delEntry, if_neg hf]
      have hm' : (n, c) ∈ rest := by
        rcases List.mem_cons.mp hm with he | hm'
        · exact absurd (by rw [← he]) hf
        · exact hm'
      intro p hp
      rcases List.mem_cons.mp hp with he | hp'
      · rw [he]
        intro hfh
        have h1 := countStem_pos hm' hs
        simp only [countStem, if_pos hfh] at hle
        omega
      · have hle' : countStem rest h ≤ 1 := by
          by_cases hfh : stemOf f.1 = h <;> simp only [countStem, if_pos, if_neg, hfh] at hle <;>
            omega
        exact ih hle' hm' p hp'

theorem findDir_delDir (l : List (String × List (String × Bytes))) (d : String) :
    findDir (delDir l d) d = none := by
  induction l with
  | nil => rfl
  | cons q rest ih =>
    by_cases hq : q.1 = d
    · simp only [delDir, if_pos hq]
      exact ih
    · simp only [delDir, if_neg hq, findDir]
      exact ih

theorem findDir_setDir {l : List (String × List (String × Bytes))} {d : String}
    {fs0 fs : List (String × Bytes)} (hf : findDir l d = some fs0) :
    findDir (setDir l d fs) d = some fs := by
  induction l with
  | nil => simp [findDir] at hf
  | cons q rest ih =>
    by_cases hq : q.1 = d
    · simp [setDir, findDir, hq]
    · simp only [findDir, if_neg hq] at hf
      simp only [setDir, List.map_cons, if_neg hq, findDir]
      exact ih hf

/-! ## C8 — Clean removal -/

/-- Claim C8 (confirmed): take any state whose shard directory for a
nonempty hash `h` exists with listing `files`, holding at most one file
whose name stem is `h` (the data-model invariant of one stored object per
hash).  If `remove_file` on `h` succeeds, then on the resulting state both
`download_file h` and a second `remove_file h` fail with
`FileNotFoundError`, and if the object was the only file in its shard
directory, that directory is gone. -/
theorem clean_removal (dl : Nat) (h : String) (s : St) (files : List (String × Bytes))
    (hne : h ≠ "")
    (hdir : findDir s.dirs (get_file_directory dl h) = some files)
    (huniq : countStem files h ≤ 1)
    (hok : (remove_file dl true h s).1 = Except.ok ()) :
    download_file dl h (remove_file dl true h s).2 = Except.error PyErr.fileNotFound ∧
    (remove_file dl true h (remove_file dl true h s).2).1 = Except.error PyErr.fileNotFound ∧
    (files.length = 1 →
      findDir ((remove_file dl true h s).2).dirs (get_file_directory dl h) = none) := by
  cases hse : scanExt files h with
  | error e =>
    exfalso
    simp [remove_file, hdir, hse] at hok
  | ok ext =>
    by_cases hhe : hasEntry files (objectName h ext) = true
    · obtain ⟨n, c, hmem, hstem, hext⟩ := scanExt_ok hse
      have hn : n = objectName h ext := by
        rw [← hext]
        exact stem_reconstruct hstem hne
      have hrem : ∀ p ∈ delEntry files (objectName h ext), stemOf p.1 ≠ h := by
        rw [← hn]
        exact countStem_del huniq hmem hstem
      by_cases hem : (delEntry files (objectName h ext)).isEmpty = true
      · have hs2 : (remove_file dl true h s).2 =
            St.mk s.hsh (delDir s.dirs (get_file_directory dl h)) := by
          simp [remove_file, hdir, hse, hhe, hem]
        rw [hs2]
        refine ⟨?_, ?_, fun _ => ?_⟩
        · simp [download_file, findDir_delDir]
        · simp [remove_file, findDir_delDir]
        · exact findDir_delDir s.dirs (get_file_directory dl h)
      · have hs2 : (remove_file dl true h s).2 =
            St.mk s.hsh
              (setDir s.dirs (get_file_directory dl h)
                (delEntry files (objectName h ext))) := by
          simp [remove_file, hdir, hse, hhe, hem]
        have hfd2 : findDir
            (setDir s.dirs (get_file_directory dl h) (delEntry files (objectName h ext)))
            (get_file_directory dl h) = some (delEntry files (objectName h ext)) :=
          findDir_setDir hdir
        have hsc : scanExt (delEntry files (objectName h ext)) h =
            Except.error PyErr.fileNotFound := scanExt_none hrem
        rw [hs2]
        refine ⟨?_, ?_, ?_⟩
        · simp [download_file, hfd2, hsc]
        · simp [remove_file, hfd2, hsc]
        · intro hlen
          exfalso
          obtain ⟨x, hx⟩ := List.length_eq_one.mp hlen
          have hxm : (n, c) = x := by
            rw [hx] at hmem
            simpa using hmem
          apply hem
          rw [hx, ← hxm]
          simp [delEntry, ← hn]
    · exfalso
      simp [remove_file, hdir, hse, hhe] at hok

/-- Witness for `clean_removal` at a concrete one-object store: removing
the object of hash `ab12` empties the store, after which download and
remove both report `FileNotFoundError` and the shard directory `ab` is
gone. -/
theorem clean_removal_witness :
    (("ab12" : String) ≠ "" ∧
      findDir (St.mk [] [("ab", [("ab12.txt", [1])])]).dirs (get_file_directory 2 "ab12") =
        some [("ab12.txt", [1])] ∧
      countStem [("ab12.txt", [1])] "ab12" ≤ 1 ∧
      (remove_file 2 true "ab12" (St.mk [] [("ab", [("ab12.txt", [1])])])).1 =
        Except.ok ()) ∧
    (download_file 2 "ab12" (remove_file 2 true "ab12"
        (St.mk [] [("ab", [("ab12.txt", [1])])])).2 = Except.error PyErr.fileNotFound ∧
      (remove_file 2 true "ab12" (remove_file 2 true "ab12"
        (St.mk [] [("ab", [("ab12.txt", [1])])])).2).1 = Except.error PyErr.fileNotFound ∧
      ([("ab12.txt", ([1] : Bytes))].length = 1 →
        findDir ((remove_file 2 true "ab12"
          (St.mk [] [("ab", [("ab12.txt", [1])])])).2).dirs (get_file_directory 2 "ab12") =
          none)) :=
  ⟨⟨by decide, by decide, by decide, by decide⟩,
    clean_removal 2 "ab12" (St.mk [] [("ab", [("ab12.txt", [1])])]) [("ab12.txt", [1])]
      (by decide) (by decide) (by decide) (by decide)⟩

/-! ## C9 — Best-effort directory cleanup in Remove -/

/-- Claim C9 is false on the code at a concrete input: with a one-object
store, when the `rmdir` of the emptied shard directory fails, the whole
`remove_file` call reports the `OSError` instead of success — yet the
object file itself was already deleted (the directory remains, empty). -/
theorem remove_rmdir_failure_cx :
    (remove_file 2 false "bb22" (St.mk [] [("bb", [("bb22.txt", [7])])])).1 =
      Except.error PyErr.osErr ∧
    (remove_file 2 false "bb22" (St.mk [] [("bb", [("bb22.txt", [7])])])).2 =
      St.mk [] [("bb", [])] := by
  refine ⟨rfl, rfl⟩

/-- Claim C9 (amended): there is no handler around `rmdir`, so whenever the
deletion of the now-empty shard directory fails, `remove_file` fails with
the propagated `OSError` instead of reporting success — even though the
object file was already unlinked (the same call with a working `rmdir`
succeeds, the object can no longer be located, and the empty shard
directory is still present). -/
theorem remove_cleanup_failure_fatal (dl : Nat) (h : String) (s : St)
    (hfail : (remove_file dl false h s).1 = Except.error PyErr.osErr) :
    (remove_file dl true h s).1 = Except.ok () ∧
    get_file_extension dl h ((remove_file dl false h s).2) =
      Except.error PyErr.fileNotFound ∧
    findDir ((remove_file dl false h s).2).dirs (get_file_directory dl h) = some [] := by
  cases hfd : findDir s.dirs (get_file_directory dl h) with
  | none =>
    exfalso
    simp [remove_file, hfd] at hfail
  | some files =>
    cases hse : scanExt files h with
    | error e =>
      exfalso
      have he := scanExt_err hse
      subst he
      simp [remove_file, hfd, hse] at hfail
    | ok ext =>
      by_cases hhe : hasEntry files (objectName h ext) = true
      · by_cases hem : (delEntry files (objectName h ext)).isEmpty = true
        · have hnil : delEntry files (objectName h ext) = [] := by
            cases hdel : delEntry files (objectName h ext) with
            | nil => rfl
            | cons a l =>
              rw [hdel] at hem
              simp at hem
          have h2 : (remove_file dl false h s).2 =
              St.mk s.hsh
                (setDir s.dirs (get_file_directory dl h)
                  (delEntry files (objectName h ext))) := by
            simp [remove_file, hfd, hse, hhe, hem]
          have hfd3 : findDir (setDir s.dirs (get_file_directory dl h) [])
              (get_file_directory dl h) = some [] := by
            rw [← hnil]
            exact findDir_setDir hfd
          refine ⟨?_, ?_, ?_⟩
          · simp [remove_file, hfd, hse, hhe, hem]
          · rw [h2]
            simp [get_file_extension, hnil, hfd3, scanExt]
          · rw [h2]
            simp [hnil, hfd3]
        · exfalso
          simp [remove_file, hfd, hse, hhe, hem] at hfail
      · exfalso
        simp [remove_file, hfd, hse, hhe] at hfail

/-- Witness for `remove_cleanup_failure_fatal` at the concrete one-object
store under hash `bb22`. -/
theorem remove_cleanup_failure_fatal_witness :
    (remove_file 2 false "bb22" (St.mk [] [("bb", [("bb22.txt", [7])])])).1 =
      Except.error PyErr.osErr ∧
    ((remove_file 2 true "bb22" (St.mk [] [("bb", [("bb22.txt", [7])])])).1 =
        Except.ok () ∧
      get_file_extension 2 "bb22"
        ((remove_file 2 false "bb22" (St.mk [] [("bb", [("bb22.txt", [7])])])).2) =
        Except.error PyErr.fileNotFound ∧
      findDir ((remove_file 2 false "bb22"
        (St.mk [] [("bb", [("bb22.txt", [7])])])).2).dirs (get_file_directory 2 "bb22") =
        some []) :=
  ⟨by decide,
    remove_cleanup_failure_fatal 2 "bb22" (St.mk [] [("bb", [("bb22.txt", [7])])])
      (by decide)⟩

/-! ## C10 — Upload hashes the local file, not the stream -/

/-- Claim C10 (confirmed): `get_file_hash` reads the file named by the
client-supplied original filename from the process working directory —
its result is entirely independent of the uploaded stream's bytes — and
when no such local file exists, `upload_file` raises `FileNotFoundError`
with the store state completely unchanged (no directory or file is
created under the root). -/
theorem upload_reads_local_file (dl : Nat) (cwd : List (String × Bytes)) (name : String)
    (c1 c2 : Bytes) (s : St) :
    get_file_hash cwd (UploadFile.mk name c1) s = get_file_hash cwd (UploadFile.mk name c2) s ∧
    (lookupBytes cwd name = none →
      upload_file dl cwd (UploadFile.mk name c1) s = (Except.error PyErr.fileNotFound, s)) := by
  constructor
  · rfl
  · intro hl
    simp [upload_file, get_file_hash, hl]

/-- Witness for `upload_reads_local_file`: with only `other.txt` in the
working directory, uploading stream bytes under the name `y.txt` fails
with `FileNotFoundError` and leaves the store untouched. -/
theorem upload_reads_local_file_witness :
    lookupBytes [("other.txt", [5])] "y.txt" = none ∧
    upload_file 2 [("other.txt", [5])] (UploadFile.mk "y.txt" [2]) initSt =
      (Except.error PyErr.fileNotFound, initSt) :=
  ⟨by decide,
    (upload_reads_local_file 2 [("other.txt", [5])] "y.txt" [2] [9] initSt).2 (by decide)⟩

end FileStore
